import Mathlib

/-!
# Generalised rock-paper-scissors (`src/rps.js`)

A shallow embedding of the `Game` class and of `main`, followed by the
properties of the rules table, of the start-up validation and of the
interactive round.

JavaScript arrays are lists, an array read `a[k]` is `a[k]?` (`none` is
`undefined`), the strings `'Win'`, `'Lose'`, `'Draw'` stay strings.
-/

namespace Rps

/-! ## The rules table -/

/-- The array `winningIndices` of row `i`: the loop
`for (let j = 1; j <= n / 2; j++) winningIndices.push((i + j) % n)`.
`n / 2` is a real division there, and an integer `j` has `j <= n / 2`
exactly when `j` is at most the integer quotient, so `j` runs over
`1, ..., n / 2` (integer quotient). -/
def winningIndices (n i : Nat) : List Nat :=
  (List.range' 1 (n / 2)).map (fun (j : Nat) => (i + j) % n)

/-- The array `losingIndices` of row `i`: the same loop pushes
`(i - j + n) % n`; the difference `i - j` may be negative, so it is computed
in the integers. -/
def losingIndices (n i : Nat) : List Nat :=
  (List.range' 1 (n / 2)).map
    (fun (j : Nat) => ((((i : Int) - (j : Int) + (n : Int)) % (n : Int))).toNat)

/-- The entry `table[i][j]`:
`winningIndices.includes(j) ? 'Win' : losingIndices.includes(j) ? 'Lose' : 'Draw'`. -/
def tableEntry (n i j : Nat) : String :=
  if j ∈ winningIndices n i then "Win"
  else if j ∈ losingIndices n i then "Lose"
  else "Draw"

/-- The function `generateRulesTable(moves)`: `n = moves.length`, one row for
each `i < n`, one entry for each `j < n`. -/
def generateRulesTable (moves : List String) : List (List String) :=
  (List.range moves.length).map (fun i =>
    (List.range moves.length).map (fun j => tableEntry moves.length i j))

/-- The read `M[i][j]` of a table; `none` when a row or a column is missing. -/
def entry (M : List (List String)) (i j : Nat) : Option String :=
  (M[i]?).bind (fun row => row[j]?)

/-! ## JavaScript values read by `playGame` -/

/-- A JavaScript number as far as `playGame` inspects one: `NaN`, an infinity,
or the finite double of value `± num / den` (a fraction, not reduced). -/
inductive JSNumber where
  | nan
  | infinity (negative : Bool)
  | finite (negative : Bool) (num den : Nat)
  deriving DecidableEq, Repr

namespace JSNumber

/-- The test `x === 0`, true of `+0` and of `-0`. -/
def isZero : JSNumber → Bool
  | finite _ num _ => num == 0
  | _ => false

/-- The global `isNaN(x)` on a number. -/
def isNaN : JSNumber → Bool
  | nan => true
  | _ => false

/-- The comparison `x < 1`; false for `NaN`. -/
def ltOne : JSNumber → Bool
  | nan => false
  | infinity negative => negative
  | finite true _ _ => true
  | finite false num den => decide (num < den)

/-- The comparison `x > n` for an array length `n`; false for `NaN`. -/
def gtNat : JSNumber → Nat → Bool
  | nan, _ => false
  | infinity negative, _ => !negative
  | finite true _ _, _ => false
  | finite false num den, n => decide (n * den < num)

/-- The array index that the property key `x - 1` names, if any: `k` when `x`
is the integer `k + 1`. Every other key (a fraction, a negative number)
names no element of an array, and the read yields `undefined`. -/
def pred? : JSNumber → Option Nat
  | finite false num den =>
      if den ∣ num ∧ 0 < den ∧ 1 ≤ num / den then some (num / den - 1) else none
  | _ => none

end JSNumber

/-! ### Rounding to a double

A JavaScript number is an IEEE 754 binary64 value: 53 significant bits, the
unit in the last place never below `2 ^ (-1074)`. -/

/-- The integer logarithm to base 2 with `fuel` halvings allowed. -/
def floorLog2Aux : Nat → Nat → Nat
  | 0, _ => 0
  | fuel + 1, n => if 2 ≤ n then floorLog2Aux fuel (n / 2) + 1 else 0

/-- The integer logarithm to base 2: `2 ^ floorLog2 n ≤ n < 2 ^ (floorLog2 n + 1)`
for `n ≥ 1`. -/
def floorLog2 (n : Nat) : Nat := floorLog2Aux n n

/-- The binary exponent `e` of a positive fraction:
`2 ^ e ≤ num / den < 2 ^ (e + 1)`. -/
def binaryExponent (num den : Nat) : Int :=
  if den ≤ num then Int.ofNat (floorLog2 (num / den))
  else if den ≤ num * 2 ^ floorLog2 (den / num) then - Int.ofNat (floorLog2 (den / num))
  else - Int.ofNat (floorLog2 (den / num) + 1)

/-- The exponent of the unit in the last place of the doubles around a
positive fraction: 52 below its binary exponent, and `-1074` in the subnormal
range. -/
def ulpExponent (num den : Nat) : Int :=
  max (binaryExponent num den) (-1022) - 52

/-- The integer nearest to `p / q`, the even one of two equally near. -/
def roundHalfEven (p q : Nat) : Nat :=
  if 2 * (p % q) < q then p / q
  else if q < 2 * (p % q) then p / q + 1
  else if (p / q) % 2 = 0 then p / q
  else p / q + 1

/-- The value `num / den` rounded to the nearest multiple of its unit in the
last place, ties to even (the exponent unbounded above). A value that is such
a multiple already is returned as it stands. -/
def nearestDouble (num den : Nat) : Nat × Nat :=
  if num = 0 then (num, den)
  else
    let up := (ulpExponent num den).toNat
    let down := (- ulpExponent num den).toNat
    let m := roundHalfEven (num * 2 ^ down) (den * 2 ^ up)
    if m * (den * 2 ^ up) = num * 2 ^ down then (num, den)
    else (m * 2 ^ up, 2 ^ down)

/-- The largest multiple of its unit in the last place that is at most
`num / den`: the double at or just below the value. A value that is a double
is returned as it stands. -/
def doubleBelow (num den : Nat) : Nat × Nat :=
  if num = 0 then (num, den)
  else
    let up := (ulpExponent num den).toNat
    let down := (- ulpExponent num den).toNat
    let m := (num * 2 ^ down) / (den * 2 ^ up)
    if m * (den * 2 ^ up) = num * 2 ^ down then (num, den)
    else (m * 2 ^ up, 2 ^ down)

/-- The number that stands for the mathematical value `± num / den`: the
nearest double, an infinity when that is `2 ^ 1024` or more, which is when
the integer part has a logarithm of 1024 or more. -/
def roundValue (negative : Bool) (num den : Nat) : JSNumber :=
  if 1024 ≤ floorLog2 ((nearestDouble num den).1 / (nearestDouble num den).2) then
    JSNumber.infinity negative
  else JSNumber.finite negative (nearestDouble num den).1 (nearestDouble num den).2

/-- The characters `StrWhiteSpaceChar` that the string-to-number conversion
strips from both ends: white space and line terminators. -/
def isStrWhiteSpaceChar (c : Char) : Bool :=
  c.toNat ∈ [0x09, 0x0A, 0x0B, 0x0C, 0x0D, 0x20, 0xA0, 0x1680, 0x2000, 0x2001, 0x2002,
    0x2003, 0x2004, 0x2005, 0x2006, 0x2007, 0x2008, 0x2009, 0x200A, 0x2028, 0x2029,
    0x202F, 0x205F, 0x3000, 0xFEFF]

/-- Both ends of a string stripped of `StrWhiteSpaceChar`. -/
def trimWhiteSpace (cs : List Char) : List Char :=
  ((cs.dropWhile isStrWhiteSpaceChar).reverse.dropWhile isStrWhiteSpaceChar).reverse

/-- The value of one digit character, letters up to `f` / `F` included. -/
def digitValue (c : Char) : Option Nat :=
  if 48 ≤ c.toNat ∧ c.toNat ≤ 57 then some (c.toNat - 48)
  else if 97 ≤ c.toNat ∧ c.toNat ≤ 102 then some (c.toNat - 87)
  else if 65 ≤ c.toNat ∧ c.toNat ≤ 70 then some (c.toNat - 55)
  else none

/-- The digits `cs` read in base `base` after the value `acc`; `none` when a
character is not a digit of that base. -/
def readDigits (base : Nat) : List Char → Nat → Option Nat
  | [], acc => some acc
  | c :: cs, acc =>
    match digitValue c with
    | some d => if d < base then readDigits base cs (acc * base + d) else none
    | none => none

/-- A non-empty digit sequence read in base `base`. -/
def digitsToNat (base : Nat) (cs : List Char) : Option Nat :=
  if cs = [] then none else readDigits base cs 0

/-- The production `ExponentPart` after its `e` / `E`: an optional sign and
decimal digits. -/
def readExponent (cs : List Char) : Option Int :=
  match cs with
  | '+' :: ds => (digitsToNat 10 ds).map Int.ofNat
  | '-' :: ds => (digitsToNat 10 ds).map (fun k => - Int.ofNat k)
  | ds => (digitsToNat 10 ds).map Int.ofNat

/-- The number for the mathematical value `mant * 10 ^ exp`. -/
def scaleDecimal (negative : Bool) (mant : Nat) (exp : Int) : JSNumber :=
  match exp with
  | Int.ofNat k => roundValue negative (mant * 10 ^ k) 1
  | Int.negSucc k => roundValue negative mant (10 ^ (k + 1))

/-- The production `StrUnsignedDecimalLiteral`: `Infinity`, or decimal digits
with an optional fraction and an optional exponent; anything else is `NaN`. -/
def readUnsignedDecimal (negative : Bool) (cs : List Char) : JSNumber :=
  if cs = "Infinity".toList then JSNumber.infinity negative
  else
    let (mantissa, expPart) := cs.span (fun c => !(c == 'e' || c == 'E'))
    let (intPart, fracPart) := mantissa.span (fun c => !(c == '.'))
    let fracDigits := fracPart.drop 1
    let exp? : Option Int := if expPart = [] then some 0 else readExponent (expPart.drop 1)
    let wellFormed : Bool :=
      if fracPart = [] then !intPart.isEmpty else !(intPart.isEmpty && fracDigits.isEmpty)
    match wellFormed, readDigits 10 (intPart ++ fracDigits) 0, exp? with
    | true, some mant, some exp => scaleDecimal negative mant (exp - Int.ofNat fracDigits.length)
    | _, _, _ => JSNumber.nan

/-- The conversion `Number(s)` of a string (`StringToNumber`): white space is
stripped from both ends; the empty remainder is `0`; a `0x`, `0o` or `0b`
literal is an integer in that base; otherwise the remainder is read as an
optionally signed decimal literal; a string of no such form is `NaN`. The
mathematical value of the literal is rounded to a double. -/
def Number (s : String) : JSNumber :=
  let cs := trimWhiteSpace s.toList
  match cs with
  | [] => JSNumber.finite false 0 1
  | '+' :: rest => readUnsignedDecimal false rest
  | '-' :: rest => readUnsignedDecimal true rest
  | '0' :: b :: ds =>
    if b = 'x' ∨ b = 'X' then
      (match digitsToNat 16 ds with | some v => roundValue false v 1 | none => JSNumber.nan)
    else if b = 'o' ∨ b = 'O' then
      (match digitsToNat 8 ds with | some v => roundValue false v 1 | none => JSNumber.nan)
    else if b = 'b' ∨ b = 'B' then
      (match digitsToNat 2 ds with | some v => roundValue false v 1 | none => JSNumber.nan)
    else readUnsignedDecimal false cs
  | _ => readUnsignedDecimal false cs

/-! ## The game -/

/-- The fields of a `Game` that the round reads and writes. `computerMove`
and `hmac` are `null` (`none`) until `playGame` has run; the readline
interface `rl` appears as the events of the output. -/
structure Game where
  moves : List String
  rulesTable : List (List String)
  key : String
  computerMove : Option String
  hmac : Option String
  deriving DecidableEq, Repr

/-- What the program does to its terminal, in order: a `console.log` line, a
`console.error` line, the `cli-table` handed to `console.log` (its head and
rows; the box drawing is the library's), the prompt of `rl.question`, and
`rl.close()`. -/
inductive Event where
  | log (line : String)
  | error (line : String)
  | table (head : List String) (rows : List (List String))
  | question (prompt : String)
  | close
  deriving DecidableEq, Repr

/-- Where a run of the program stands: `awaiting` an input line in state `g`
after the output `out`; `ended`, the program having returned; `thrown`, an
uncaught `TypeError`. -/
inductive Step where
  | awaiting (g : Game) (out : List Event)
  | ended (out : List Event)
  | thrown (out : List Event)
  deriving DecidableEq, Repr

/-- The output `pre` followed by the output of `s`. -/
def Step.prepend (pre : List Event) : Step → Step
  | Step.awaiting g out => Step.awaiting g (pre ++ out)
  | Step.ended out => Step.ended (pre ++ out)
  | Step.thrown out => Step.thrown (pre ++ out)

/-- One outcome of `Math.random()`: the double of value `num / den`, in
`[0, 1)` when `num < den`. A fraction that is no double stands for the double
just below it. -/
structure RandomOutcome where
  num : Nat
  den : Nat
  deriving DecidableEq, Repr

/-- The index `Math.floor(Math.random() * n)`: the product of the outcome and
the array length `n` is a double multiplication, so it is rounded to the
nearest double before the floor is taken. -/
def randomIndex (r : RandomOutcome) (n : Nat) : Nat :=
  (nearestDouble ((doubleBelow r.num r.den).1 * n) (doubleBelow r.num r.den).2).1 /
    (nearestDouble ((doubleBelow r.num r.den).1 * n) (doubleBelow r.num r.den).2).2

/-- The constructor `new Game(moves)`; `key` is the value `generateKey()`
returned. -/
def Game.create (key : String) (moves : List String) : Game where
  moves := moves
  rulesTable := generateRulesTable moves
  key := key
  computerMove := none
  hmac := none

/-- The method `applyTextStyle(text, { colorCode, isBold })`; an empty
`colorCode` is falsy. -/
def applyTextStyle (text colorCode : String) (isBold : Bool) : String :=
  (if colorCode ≠ "" then "\x1b[" ++ colorCode ++ "m" else "") ++
    (if isBold then "\x1b[1m" else "") ++ text ++ "\x1b[0m"

/-- The method `printRulesTable()`: the title, the table with one row
`[moves[i], ...rulesTable[i]]` for each move, the legend. A game made by the
constructor has a table row for every move; the empty row stands for a state
that has none. -/
def printRulesTable (g : Game) : List Event :=
  [Event.log (applyTextStyle "Rules table:" "31" true),
   Event.table ("v PC\\User >" :: g.moves)
     ((List.range g.moves.length).map (fun i =>
       match g.moves[i]?, g.rulesTable[i]? with
       | some move, some row => move :: row
       | _, _ => [])),
   Event.log (applyTextStyle
     "(The intersection of the user's and the computer's moves is the result from the user's point of view)"
     "32" false)]

/-- The method `printMenu()`. -/
def printMenu (g : Game) : List Event :=
  [Event.log "Available moves:"] ++
    g.moves.enum.map (fun p => Event.log (toString (p.1 + 1) ++ " - " ++ p.2)) ++
    [Event.log "0 - exit", Event.log "? - help"]

/-- The text a template literal gives a value that may be `null`. -/
def showNullable : Option String → String
  | some s => s
  | none => "null"

/-- The text a template literal gives a value that may be `undefined`. -/
def showOptional : Option String → String
  | some s => s
  | none => "undefined"

/-- The call `moves.indexOf(x)`: the first index holding `x`; `none` is the
result `-1`, also for an `x` that is no string. -/
def jsIndexOf (moves : List String) (x : Option String) : Option Nat :=
  match x with
  | some s => if s ∈ moves then some (moves.indexOf s) else none
  | none => none

/-- The first half of `playGame()`, up to the prompt: draw the computer's
move, store its HMAC, print the key, ask. `calculateHMAC` is the keyed hash
of `(key, message)`; `hmac.update` throws on a message that is `undefined`. -/
def playGame (calculateHMAC : String → String → String) (g : Game) (r : RandomOutcome) :
    Step :=
  match g.moves[randomIndex r g.moves.length]? with
  | none => Step.thrown []
  | some move =>
    Step.awaiting { g with computerMove := some move, hmac := some (calculateHMAC g.key move) }
      [Event.log ("HMAC key: " ++ g.key), Event.question "Enter your move: "]

/-- The last lines of the callback, from `const userMove` on. -/
def resolve (g : Game) (userIndex : JSNumber) : Step :=
  let userMove : Option String := userIndex.pred?.bind (fun k => g.moves[k]?)
  let shown : List Event :=
    [Event.log ("Your move: " ++ showOptional userMove),
     Event.log ("Computer move: " ++ showNullable g.computerMove)]
  let userI := jsIndexOf g.moves userMove
  match (jsIndexOf g.moves g.computerMove).bind (fun c => g.rulesTable[c]?) with
  | none => Step.thrown shown
  | some row =>
    let result : Option String := userI.bind (fun u => row[u]?)
    let verdict : List Event :=
      if result = some "Win" then [Event.log "You win!"]
      else if result = some "Lose" then [Event.log "Computer wins!"]
      else if result = some "Draw" then [Event.log "It's a draw!"]
      else []
    Step.ended (shown ++ verdict ++ [Event.log ("HMAC: " ++ showNullable g.hmac), Event.close])

/-- The callback that `playGame()` hands to `rl.question`, run on the line
`userChoice`; `r` is the outcome of `Math.random()` in the call of
`playGame()` that a re-prompt makes. -/
def handleInput (calculateHMAC : String → String → String) (g : Game) (userChoice : String)
    (r : RandomOutcome) : Step :=
  let userIndex := Number userChoice
  if userIndex.isZero then Step.ended [Event.log "Goodbye!", Event.close]
  else if userChoice = "?" then
    (playGame calculateHMAC g r).prepend (printRulesTable g)
  else if userIndex.isNaN || userIndex.ltOne || userIndex.gtNat g.moves.length then
    (playGame calculateHMAC g r).prepend
      (Event.error "Invalid input. Please enter a valid move number." :: printMenu g)
  else resolve g userIndex

/-- The size of `new Set(args)`: the number of distinct values. -/
def setSize (args : List String) : Nat :=
  args.dedup.length

/-- The function `main()` on the arguments `args`; `key` is what
`generateKey()` returns and `r` the outcome of `Math.random()` in the first
`playGame()`. -/
def main (calculateHMAC : String → String → String) (args : List String) (key : String)
    (r : RandomOutcome) : Step :=
  if args.length < 3 ∨ args.length % 2 = 0 ∨ setSize args ≠ args.length then
    Step.ended [Event.error "Invalid input. Please provide an odd number of unique moves."]
  else
    (playGame calculateHMAC (Game.create key args) r).prepend (printMenu (Game.create key args))

/-- A session: the input lines, each with the outcome of `Math.random()` for
the re-prompt it may cause, fed to the program while it awaits input. -/
def run (calculateHMAC : String → String → String) :
    Step → List (String × RandomOutcome) → Step
  | Step.awaiting g out, (line, r) :: rest =>
    run calculateHMAC ((handleInput calculateHMAC g line r).prepend out) rest
  | s, _ => s

/-- A stand-in for the keyed hash, to evaluate the program at concrete
inputs. -/
def sampleHMAC (key message : String) : String :=
  "hmac(" ++ key ++ "," ++ message ++ ")"

/-- The pending commitment of a step that awaits input: the fields
`computerMove` and `hmac`. -/
def Step.commitment : Step → Option (Option String × Option String)
  | Step.awaiting g _ => some (g.computerMove, g.hmac)
  | _ => none

/-- The classic three moves. -/
def classicMoves : List String := ["Rock", "Paper", "Scissors"]

/-- The five moves of the extended game. -/
def fiveMoves : List String := ["Rock", "Paper", "Scissors", "Lizard", "Spock"]

/-- A game over the classic moves with key `k` in which `playGame` has
committed to `move`. -/
def classicGame (move : String) : Game where
  moves := classicMoves
  rulesTable := generateRulesTable classicMoves
  key := "k"
  computerMove := some move
  hmac := some (sampleHMAC "k" move)

/-! ## Arithmetic of the two half-circles -/

theorem mod_of_lt_two_mul (n x : Nat) (h : x < 2 * n) :
    x % n = if x < n then x else x - n := by
  split
  · exact Nat.mod_eq_of_lt (by assumption)
  · rw [Nat.mod_eq_sub_mod (by omega), Nat.mod_eq_of_lt (by omega)]

theorem losing_step (n i d : Nat) (hd : d ≤ n) :
    ((((i : Int) - (d : Int) + (n : Int)) % (n : Int))).toNat = (i + n - d) % n := by
  have h : ((i : Int) - (d : Int) + (n : Int)) = (((i + n - d : Nat)) : Int) := by omega
  rw [h, ← Int.natCast_mod, Int.toNat_natCast]

theorem mem_winningIndices (n i j : Nat) :
    j ∈ winningIndices n i ↔ ∃ d, 1 ≤ d ∧ d ≤ n / 2 ∧ (i + d) % n = j := by
  simp only [winningIndices, List.mem_map, List.mem_range'_1]
  constructor
  · rintro ⟨d, ⟨h1, h2⟩, h3⟩; exact ⟨d, h1, by omega, h3⟩
  · rintro ⟨d, h1, h2, h3⟩; exact ⟨d, ⟨h1, by omega⟩, h3⟩

theorem mem_losingIndices (n i j : Nat) :
    j ∈ losingIndices n i ↔ ∃ d, 1 ≤ d ∧ d ≤ n / 2 ∧ (i + n - d) % n = j := by
  simp only [losingIndices, List.mem_map, List.mem_range'_1]
  constructor
  · rintro ⟨d, ⟨h1, h2⟩, h3⟩
    rw [losing_step n i d (by omega)] at h3
    exact ⟨d, h1, by omega, h3⟩
  · rintro ⟨d, h1, h2, h3⟩
    refine ⟨d, ⟨h1, by omega⟩, ?_⟩
    rw [losing_step n i d (by omega)]; exact h3

theorem winning_iff (n i j : Nat) (hi : i < n) (hj : j < n) :
    j ∈ winningIndices n i ↔ (i < j ∧ j ≤ i + n / 2) ∨ (j < i ∧ j + n ≤ i + n / 2) := by
  rw [mem_winningIndices]
  constructor
  · rintro ⟨d, h1, h2, h3⟩
    rw [mod_of_lt_two_mul n (i + d) (by omega)] at h3
    split at h3 <;> omega
  · rintro (⟨h1, h2⟩ | ⟨h1, h2⟩)
    · refine ⟨j - i, by omega, by omega, ?_⟩
      rw [mod_of_lt_two_mul n _ (by omega)]; split <;> omega
    · refine ⟨j + n - i, by omega, by omega, ?_⟩
      rw [mod_of_lt_two_mul n _ (by omega)]; split <;> omega

theorem losing_iff (n i j : Nat) (hi : i < n) (hj : j < n) :
    j ∈ losingIndices n i ↔ (j < i ∧ i ≤ j + n / 2) ∨ (i < j ∧ i + n ≤ j + n / 2) := by
  rw [mem_losingIndices]
  constructor
  · rintro ⟨d, h1, h2, h3⟩
    rw [mod_of_lt_two_mul n (i + n - d) (by omega)] at h3
    split at h3 <;> omega
  · rintro (⟨h1, h2⟩ | ⟨h1, h2⟩)
    · refine ⟨i - j, by omega, by omega, ?_⟩
      rw [mod_of_lt_two_mul n _ (by omega)]; split <;> omega
    · refine ⟨i + n - j, by omega, by omega, ?_⟩
      rw [mod_of_lt_two_mul n _ (by omega)]; split <;> omega
theorem lt_of_mem_winningIndices (n i j : Nat) (hn : 0 < n) (h : j ∈ winningIndices n i) :
    j < n := by
  obtain ⟨d, -, -, rfl⟩ := (mem_winningIndices n i j).1 h
  exact Nat.mod_lt _ hn

theorem lt_of_mem_losingIndices (n i j : Nat) (hn : 0 < n) (h : j ∈ losingIndices n i) :
    j < n := by
  obtain ⟨d, -, -, rfl⟩ := (mem_losingIndices n i j).1 h
  exact Nat.mod_lt _ hn

theorem length_winningIndices (n i : Nat) : (winningIndices n i).length = n / 2 := by
  simp [winningIndices]

theorem length_losingIndices (n i : Nat) : (losingIndices n i).length = n / 2 := by
  simp [losingIndices]

theorem nodup_winningIndices (n i : Nat) (hi : i < n) : (winningIndices n i).Nodup := by
  unfold winningIndices
  refine List.Nodup.map_on ?_ (List.nodup_range' 1 (n / 2))
  intro a ha b hb hab
  rw [List.mem_range'_1] at ha hb
  rw [mod_of_lt_two_mul n (i + a) (by omega), mod_of_lt_two_mul n (i + b) (by omega)] at hab
  split at hab <;> split at hab <;> omega

theorem nodup_losingIndices (n i : Nat) (hi : i < n) : (losingIndices n i).Nodup := by
  unfold losingIndices
  refine List.Nodup.map_on ?_ (List.nodup_range' 1 (n / 2))
  intro a ha b hb hab
  rw [List.mem_range'_1] at ha hb
  rw [losing_step n i a (by omega), losing_step n i b (by omega),
    mod_of_lt_two_mul n (i + n - a) (by omega), mod_of_lt_two_mul n (i + n - b) (by omega)] at hab
  split at hab <;> split at hab <;> omega

theorem disjoint_winning_losing (n i : Nat) (hodd : n % 2 = 1) (hi : i < n) :
    List.Disjoint (winningIndices n i) (losingIndices n i) := by
  intro j hw hl
  have hj : j < n := lt_of_mem_winningIndices n i j (by omega) hw
  rw [winning_iff n i j hi hj] at hw
  rw [losing_iff n i j hi hj] at hl
  omega

theorem self_not_mem_winning (n i : Nat) (hi : i < n) : i ∉ winningIndices n i := by
  rw [winning_iff n i i hi hi]; omega

theorem self_not_mem_losing (n i : Nat) (hi : i < n) : i ∉ losingIndices n i := by
  rw [losing_iff n i i hi hi]; omega

theorem halves_perm_range (n i : Nat) (hodd : n % 2 = 1) (hi : i < n) :
    List.Perm (winningIndices n i ++ losingIndices n i ++ [i]) (List.range n) := by
  have hnd : (winningIndices n i ++ losingIndices n i ++ [i]).Nodup := by
    rw [List.nodup_append]
    refine ⟨?_, List.nodup_singleton i, ?_⟩
    · rw [List.nodup_append]
      exact ⟨nodup_winningIndices n i hi, nodup_losingIndices n i hi,
        disjoint_winning_losing n i hodd hi⟩
    · intro j hj hji
      rw [List.mem_singleton] at hji
      subst hji
      rcases List.mem_append.1 hj with h | h
      · exact self_not_mem_winning n j hi h
      · exact self_not_mem_losing n j hi h
  rw [List.perm_ext_iff_of_nodup hnd (List.nodup_range n)]
  intro j
  simp only [List.mem_append, List.mem_singleton, List.mem_range]
  constructor
  · rintro ((h | h) | h)
    · exact lt_of_mem_winningIndices n i j (by omega) h
    · exact lt_of_mem_losingIndices n i j (by omega) h
    · omega
  · intro hj
    rw [winning_iff n i j hi hj, losing_iff n i j hi hj]
    omega

theorem length_generateRulesTable (moves : List String) :
    (generateRulesTable moves).length = moves.length := by
  simp [generateRulesTable]

theorem entry_generateRulesTable (moves : List String) (i j : Nat)
    (hi : i < moves.length) (hj : j < moves.length) :
    entry (generateRulesTable moves) i j = some (tableEntry moves.length i j) := by
  simp [entry, generateRulesTable, List.getElem?_map, List.getElem?_range, hi, hj]

theorem tableEntry_eq_win (n i j : Nat) :
    tableEntry n i j = "Win" ↔ j ∈ winningIndices n i := by
  unfold tableEntry
  split
  · simp [*]
  · split <;> simp [*]

theorem tableEntry_eq_lose (n i j : Nat) :
    tableEntry n i j = "Lose" ↔ j ∉ winningIndices n i ∧ j ∈ losingIndices n i := by
  unfold tableEntry
  split
  · simp [*]
  · split <;> simp [*]

theorem tableEntry_eq_draw (n i j : Nat) :
    tableEntry n i j = "Draw" ↔ j ∉ winningIndices n i ∧ j ∉ losingIndices n i := by
  unfold tableEntry
  split
  · simp [*]
  · split <;> simp [*]

theorem getElem?_generateRulesTable (moves : List String) (i : Nat) (hi : i < moves.length) :
    (generateRulesTable moves)[i]? =
      some ((List.range moves.length).map (fun j => tableEntry moves.length i j)) := by
  simp [generateRulesTable, List.getElem?_map, List.getElem?_range, hi]

theorem count_row (n i : Nat) (hodd : n % 2 = 1) (hi : i < n) (s : String) :
    ((List.range n).map (fun j => tableEntry n i j)).count s =
      (winningIndices n i).countP (fun j => tableEntry n i j == s) +
      (losingIndices n i).countP (fun j => tableEntry n i j == s) +
      (if tableEntry n i i = s then 1 else 0) := by
  rw [List.count_eq_countP, List.countP_map,
    ← (halves_perm_range n i hodd hi).countP_eq, List.countP_append, List.countP_append]
  congr 1
  simp [List.countP_cons]

theorem count_win_row (n i : Nat) (hodd : n % 2 = 1) (hi : i < n) :
    ((List.range n).map (fun j => tableEntry n i j)).count "Win" = n / 2 := by
  rw [count_row n i hodd hi]
  have h1 : (winningIndices n i).countP (fun j => tableEntry n i j == "Win") = n / 2 := by
    rw [← length_winningIndices n i, List.countP_eq_length]
    intro j hj
    simpa using (tableEntry_eq_win n i j).2 hj
  have h2 : (losingIndices n i).countP (fun j => tableEntry n i j == "Win") = 0 := by
    rw [List.countP_eq_zero]
    intro j hj
    have := disjoint_winning_losing n i hodd hi
    simpa [tableEntry_eq_win] using fun hw => this hw hj
  have h3 : tableEntry n i i ≠ "Win" := by
    rw [Ne, tableEntry_eq_win]; exact self_not_mem_winning n i hi
  rw [h1, h2, if_neg h3]; omega

theorem count_lose_row (n i : Nat) (hodd : n % 2 = 1) (hi : i < n) :
    ((List.range n).map (fun j => tableEntry n i j)).count "Lose" = n / 2 := by
  rw [count_row n i hodd hi]
  have h1 : (winningIndices n i).countP (fun j => tableEntry n i j == "Lose") = 0 := by
    rw [List.countP_eq_zero]
    intro j hj
    simpa [tableEntry_eq_lose] using fun hw => absurd hj hw
  have h2 : (losingIndices n i).countP (fun j => tableEntry n i j == "Lose") = n / 2 := by
    rw [← length_losingIndices n i, List.countP_eq_length]
    intro j hj
    have := disjoint_winning_losing n i hodd hi
    simpa using (tableEntry_eq_lose n i j).2 ⟨fun hw => this hw hj, hj⟩
  have h3 : tableEntry n i i ≠ "Lose" := by
    rw [Ne, tableEntry_eq_lose]; exact fun h => self_not_mem_losing n i hi h.2
  rw [h1, h2, if_neg h3]; omega

theorem count_draw_row (n i : Nat) (hodd : n % 2 = 1) (hi : i < n) :
    ((List.range n).map (fun j => tableEntry n i j)).count "Draw" = 1 := by
  rw [count_row n i hodd hi]
  have h1 : (winningIndices n i).countP (fun j => tableEntry n i j == "Draw") = 0 := by
    rw [List.countP_eq_zero]
    intro j hj
    simpa [tableEntry_eq_draw] using fun hw => absurd hj hw
  have h2 : (losingIndices n i).countP (fun j => tableEntry n i j == "Draw") = 0 := by
    rw [List.countP_eq_zero]
    intro j hj
    simpa [tableEntry_eq_draw] using fun _ => hj
  have h3 : tableEntry n i i = "Draw" := by
    rw [tableEntry_eq_draw]; exact ⟨self_not_mem_winning n i hi, self_not_mem_losing n i hi⟩
  rw [h1, h2, if_pos h3]


/-! ## Theorems on the rules table -/

/-- C1: for an odd number of moves (so for every odd N >= 3 and every list of
N distinct names) the table of `generateRulesTable` is antisymmetric: for all
indices `i`, `j` below N, `M[i][j] = 'Win'` exactly when `M[j][i] = 'Lose'`. -/
theorem generateRulesTable_antisymmetric (moves : List String)
    (hodd : moves.length % 2 = 1) (i j : Nat)
    (hi : i < moves.length) (hj : j < moves.length) :
    entry (generateRulesTable moves) i j = some "Win" ↔
      entry (generateRulesTable moves) j i = some "Lose" := by
  rw [entry_generateRulesTable moves i j hi hj, entry_generateRulesTable moves j i hj hi,
    Option.some_inj, Option.some_inj, tableEntry_eq_win, tableEntry_eq_lose,
    winning_iff _ i j hi hj, winning_iff _ j i hj hi, losing_iff _ j i hj hi]
  omega

/-- The antisymmetry of the classic table at Rock (row 0) and Paper (row 1). -/
theorem generateRulesTable_antisymmetric_witness :
    classicMoves.length % 2 = 1 ∧
    (entry (generateRulesTable classicMoves) 0 1 = some "Win" ↔
      entry (generateRulesTable classicMoves) 1 0 = some "Lose") :=
  ⟨by decide, generateRulesTable_antisymmetric classicMoves (by decide) 0 1
    (by decide) (by decide)⟩

theorem int_sub_emod (n i d : Nat) (hd : d ≤ n) :
    ((i : Int) - (d : Int)) % (n : Int) = (((i + n - d) % n : Nat) : Int) := by
  have h : ((i : Int) - (d : Int) + (n : Int)) = (((i + n - d : Nat)) : Int) := by omega
  rw [← Int.add_emod_self, h, Int.natCast_mod]

/-- C2: for an odd number N of moves the table of `generateRulesTable` is an
N x N grid, `M[i][j]` is `'Draw'` exactly when `i = j`, and every entry off
the diagonal is `'Win'` or `'Lose'`. -/
theorem generateRulesTable_draw_iff_diagonal (moves : List String)
    (hodd : moves.length % 2 = 1) :
    (generateRulesTable moves).length = moves.length ∧
    (∀ row ∈ generateRulesTable moves, row.length = moves.length) ∧
    ∀ i j, i < moves.length → j < moves.length →
      (entry (generateRulesTable moves) i j = some "Draw" ↔ i = j) ∧
      (i ≠ j → entry (generateRulesTable moves) i j = some "Win" ∨
        entry (generateRulesTable moves) i j = some "Lose") := by
  refine ⟨length_generateRulesTable moves, ?_, ?_⟩
  · intro row hrow
    simp only [generateRulesTable, List.mem_map] at hrow
    obtain ⟨i, -, rfl⟩ := hrow
    simp
  · intro i j hi hj
    rw [entry_generateRulesTable moves i j hi hj, Option.some_inj, Option.some_inj,
      Option.some_inj, tableEntry_eq_draw, tableEntry_eq_win, tableEntry_eq_lose,
      winning_iff _ i j hi hj, losing_iff _ i j hi hj]
    omega

/-- The classic table: three rows of three entries with `'Draw'` exactly on
the diagonal. -/
theorem generateRulesTable_draw_iff_diagonal_witness :
    classicMoves.length % 2 = 1 ∧
    (generateRulesTable classicMoves).length = classicMoves.length ∧
    (∀ row ∈ generateRulesTable classicMoves, row.length = classicMoves.length) ∧
    ∀ i j, i < classicMoves.length → j < classicMoves.length →
      (entry (generateRulesTable classicMoves) i j = some "Draw" ↔ i = j) ∧
      (i ≠ j → entry (generateRulesTable classicMoves) i j = some "Win" ∨
        entry (generateRulesTable classicMoves) i j = some "Lose") :=
  ⟨by decide, generateRulesTable_draw_iff_diagonal classicMoves (by decide)⟩

/-- C3: the half-circle rule. For an odd number N of moves and `i`, `j` below
N: `M[i][j] = 'Win'` iff `j = (i + d) mod N` for some `d` in `1..N/2`,
`M[i][j] = 'Lose'` iff `j = (i - d) mod N` for some such `d`, `M[i][j] = 'Draw'`
iff `j = i`; the arrays `winningIndices` and `losingIndices` of row `i` are
disjoint and, with `i` itself, list every index `0..N-1` exactly once. -/
theorem generateRulesTable_half_circle (moves : List String)
    (hodd : moves.length % 2 = 1) (i j : Nat) (hi : i < moves.length) (hj : j < moves.length) :
    (entry (generateRulesTable moves) i j = some "Win" ↔
      ∃ d, 1 ≤ d ∧ d ≤ moves.length / 2 ∧ j = (i + d) % moves.length) ∧
    (entry (generateRulesTable moves) i j = some "Lose" ↔
      ∃ d : Nat, 1 ≤ d ∧ d ≤ moves.length / 2 ∧
        (j : Int) = ((i : Int) - (d : Int)) % (moves.length : Int)) ∧
    (entry (generateRulesTable moves) i j = some "Draw" ↔ j = i) ∧
    List.Disjoint (winningIndices moves.length i) (losingIndices moves.length i) ∧
    List.Perm (winningIndices moves.length i ++ losingIndices moves.length i ++ [i])
      (List.range moves.length) := by
  have hdis := disjoint_winning_losing moves.length i hodd hi
  refine ⟨?_, ?_, ?_, hdis, halves_perm_range moves.length i hodd hi⟩
  · rw [entry_generateRulesTable moves i j hi hj, Option.some_inj, tableEntry_eq_win,
      mem_winningIndices]
    simp only [eq_comm]
  · rw [entry_generateRulesTable moves i j hi hj, Option.some_inj, tableEntry_eq_lose]
    constructor
    · rintro ⟨-, hl⟩
      obtain ⟨d, h1, h2, h3⟩ := (mem_losingIndices _ i j).1 hl
      exact ⟨d, h1, h2, by rw [int_sub_emod _ i d (by omega), h3]⟩
    · rintro ⟨d, h1, h2, h3⟩
      rw [int_sub_emod _ i d (by omega)] at h3
      have hl : j ∈ losingIndices moves.length i :=
        (mem_losingIndices _ i j).2 ⟨d, h1, h2, (Int.ofNat_inj.1 h3).symm⟩
      exact ⟨fun hw => hdis hw hl, hl⟩
  · rw [entry_generateRulesTable moves i j hi hj, Option.some_inj, tableEntry_eq_draw,
      winning_iff _ i j hi hj, losing_iff _ i j hi hj]
    omega

/-- The five-move table at row 1 (Paper) and column 4 (Spock). -/
theorem generateRulesTable_half_circle_witness :
    fiveMoves.length % 2 = 1 ∧ 1 < fiveMoves.length ∧ 4 < fiveMoves.length ∧
    (entry (generateRulesTable fiveMoves) 1 4 = some "Win" ↔
      ∃ d, 1 ≤ d ∧ d ≤ fiveMoves.length / 2 ∧ 4 = (1 + d) % fiveMoves.length) ∧
    (entry (generateRulesTable fiveMoves) 1 4 = some "Lose" ↔
      ∃ d : Nat, 1 ≤ d ∧ d ≤ fiveMoves.length / 2 ∧
        ((4 : Nat) : Int) = (((1 : Nat) : Int) - (d : Int)) % (fiveMoves.length : Int)) ∧
    (entry (generateRulesTable fiveMoves) 1 4 = some "Draw" ↔ 4 = 1) ∧
    List.Disjoint (winningIndices fiveMoves.length 1) (losingIndices fiveMoves.length 1) ∧
    List.Perm (winningIndices fiveMoves.length 1 ++ losingIndices fiveMoves.length 1 ++ [1])
      (List.range fiveMoves.length) :=
  ⟨by decide, by decide, by decide,
    generateRulesTable_half_circle fiveMoves (by decide) 1 4 (by decide) (by decide)⟩

/-- C5: for an odd number N of moves every row of the table holds `'Win'`
exactly `N/2` times, `'Lose'` exactly `N/2` times and `'Draw'` once; in the
table of the five moves, row `a` has `'Win'` exactly in the columns at forward
distance 1 and 2 and `'Lose'` exactly in those at backward distance 1 and 2. -/
theorem generateRulesTable_row_counts (moves : List String) (hodd : moves.length % 2 = 1)
    (i : Nat) (hi : i < moves.length) :
    (∃ row, (generateRulesTable moves)[i]? = some row ∧
      row.count "Win" = moves.length / 2 ∧ row.count "Lose" = moves.length / 2 ∧
      row.count "Draw" = 1) ∧
    ∀ a < 5, ∀ b < 5,
      (entry (generateRulesTable fiveMoves) a b
          = some "Win" ↔ b = (a + 1) % 5 ∨ b = (a + 2) % 5) ∧
      (entry (generateRulesTable fiveMoves) a b
          = some "Lose" ↔ b = (a + 5 - 1) % 5 ∨ b = (a + 5 - 2) % 5) := by
  refine ⟨⟨_, getElem?_generateRulesTable moves i hi, count_win_row _ i hodd hi,
    count_lose_row _ i hodd hi, count_draw_row _ i hodd hi⟩, ?_⟩
  decide

/-- Row 2 (Scissors) of the five-move table. -/
theorem generateRulesTable_row_counts_witness :
    fiveMoves.length % 2 = 1 ∧ 2 < fiveMoves.length ∧
    (∃ row, (generateRulesTable fiveMoves)[2]? = some row ∧
      row.count "Win" = fiveMoves.length / 2 ∧ row.count "Lose" = fiveMoves.length / 2 ∧
      row.count "Draw" = 1) ∧
    ∀ a < 5, ∀ b < 5,
      (entry (generateRulesTable fiveMoves) a b
          = some "Win" ↔ b = (a + 1) % 5 ∨ b = (a + 2) % 5) ∧
      (entry (generateRulesTable fiveMoves) a b
          = some "Lose" ↔ b = (a + 5 - 1) % 5 ∨ b = (a + 5 - 2) % 5) :=
  ⟨by decide, by decide, generateRulesTable_row_counts fiveMoves (by decide) 2 (by decide)⟩

/-! ## Lemmas on the round -/

theorem setSize_ne_length_iff (args : List String) :
    setSize args ≠ args.length ↔ ¬ args.Nodup := by
  unfold setSize
  rw [not_iff_not]
  constructor
  · intro h
    exact List.dedup_eq_self.1 ((List.dedup_sublist args).eq_of_length h)
  · intro h
    rw [List.dedup_eq_self.2 h]

theorem pow_floorLog2Aux_le (fuel : Nat) : ∀ n, 1 ≤ n → 2 ^ floorLog2Aux fuel n ≤ n := by
  induction fuel with
  | zero => intro n hn; simpa [floorLog2Aux] using hn
  | succ fuel ih =>
    intro n hn
    unfold floorLog2Aux
    split
    · have h := ih (n / 2) (by omega)
      rw [Nat.pow_succ]
      omega
    · simpa using hn

theorem pow_floorLog2_le (n : Nat) (hn : 1 ≤ n) : 2 ^ floorLog2 n ≤ n :=
  pow_floorLog2Aux_le n n hn

theorem roundHalfEven_le (p q : Nat) (hq : 0 < q) :
    2 * (roundHalfEven p q * q) ≤ 2 * p + q := by
  have h := Nat.div_add_mod p q
  have hm := Nat.mod_lt p hq
  have hc : q * (p / q) = p / q * q := Nat.mul_comm _ _
  unfold roundHalfEven
  split
  · omega
  · split
    · rw [Nat.add_mul]; omega
    · split
      · omega
      · rw [Nat.add_mul]; omega

theorem binaryExponent_cases (a b : Nat) (ha : 0 < a) (hb : 0 < b) :
    (b ≤ a ∧ binaryExponent a b = Int.ofNat (floorLog2 (a / b)) ∧ 2 ^ floorLog2 (a / b) * b ≤ a) ∨
    (a < b ∧ binaryExponent a b ≤ -1 ∧ (binaryExponent a b ≤ -2 → 2 * a ≤ b)) := by
  unfold binaryExponent
  by_cases h : b ≤ a
  · left
    refine ⟨h, by simp [h], ?_⟩
    have h1 : 1 ≤ a / b := (Nat.one_le_div_iff hb).2 h
    have h2 := pow_floorLog2_le (a / b) h1
    exact (Nat.le_div_iff_mul_le hb).1 h2
  · right
    have hlt : a < b := Nat.lt_of_not_le h
    have h1 : 1 ≤ b / a := (Nat.one_le_div_iff ha).2 (Nat.le_of_lt hlt)
    have h2 := pow_floorLog2_le (b / a) h1
    have h3 : 2 ^ floorLog2 (b / a) * a ≤ b := (Nat.le_div_iff_mul_le ha).1 h2
    refine ⟨hlt, ?_, ?_⟩
    · rw [if_neg h]
      split
      · rename_i h4
        have h5 : floorLog2 (b / a) ≠ 0 := by
          intro h0
          rw [h0] at h4
          omega
        simp only [Int.ofNat_eq_coe]
        omega
      · simp only [Int.ofNat_eq_coe]
        omega
    · rw [if_neg h]
      split
      · intro h6
        simp only [Int.ofNat_eq_coe] at h6
        have h7 : 2 ≤ floorLog2 (b / a) := by omega
        have h8 : 2 ^ 2 ≤ 2 ^ floorLog2 (b / a) := Nat.pow_le_pow_right (by decide) h7
        have h9 : 2 ^ 2 * a ≤ 2 ^ floorLog2 (b / a) * a := Nat.mul_le_mul_right a h8
        omega
      · intro h6
        simp only [Int.ofNat_eq_coe] at h6
        have h7 : 1 ≤ floorLog2 (b / a) := by omega
        have h8 : 2 ^ 1 ≤ 2 ^ floorLog2 (b / a) := Nat.pow_le_pow_right (by decide) h7
        have h9 : 2 ^ 1 * a ≤ 2 ^ floorLog2 (b / a) * a := Nat.mul_le_mul_right a h8
        omega


theorem ulpExponent_bound (a b n : Nat) (ha : 0 < a) (hb : 0 < b) (h : a < n * b) :
    2 ^ 52 * 2 ^ (ulpExponent a b).toNat < n * 2 ^ (- ulpExponent a b).toNat := by
  have hn : 0 < n := by
    rcases Nat.eq_zero_or_pos n with h0 | h0
    · rw [h0] at h; omega
    · exact h0
  unfold ulpExponent
  rcases binaryExponent_cases a b ha hb with ⟨_, he, hle⟩ | ⟨_, he, _⟩
  · rw [he]
    generalize floorLog2 (a / b) = L at hle
    have hL : 2 ^ L < n := by
      have h1 : 2 ^ L * b < n * b := Nat.lt_of_le_of_lt hle h
      exact Nat.lt_of_mul_lt_mul_right h1
    have hu : (max (Int.ofNat L) (-1022) - 52).toNat = L - 52 := by
      simp only [Int.ofNat_eq_coe]; omega
    have hd : (-(max (Int.ofNat L) (-1022) - 52)).toNat = 52 - L := by
      simp only [Int.ofNat_eq_coe]; omega
    rw [hu, hd]
    rcases Nat.le_total 52 L with h52 | h52
    · have e1 : 52 - L = 0 := by omega
      rw [e1, ← Nat.pow_add, Nat.add_sub_cancel' h52]
      simpa using hL
    · have e1 : L - 52 = 0 := by omega
      have e2 : 2 ^ 52 = 2 ^ L * 2 ^ (52 - L) := by
        rw [← Nat.pow_add, Nat.add_sub_cancel' h52]
      rw [e1, Nat.pow_zero, Nat.mul_one, e2]
      exact Nat.mul_lt_mul_of_pos_right hL (Nat.two_pow_pos _)
  · have hu : (max (binaryExponent a b) (-1022) - 52).toNat = 0 := by omega
    have hd : 53 ≤ (-(max (binaryExponent a b) (-1022) - 52)).toNat := by omega
    rw [hu]
    have h1 : 2 ^ 53 ≤ 2 ^ (-(max (binaryExponent a b) (-1022) - 52)).toNat :=
      Nat.pow_le_pow_right (by decide) hd
    have h2 : 2 ^ (-(max (binaryExponent a b) (-1022) - 52)).toNat ≤
        n * 2 ^ (-(max (binaryExponent a b) (-1022) - 52)).toNat :=
      Nat.le_mul_of_pos_left _ hn
    have h3 : (2 : Nat) ^ 52 * 2 ^ 0 < 2 ^ 53 := by decide
    omega

theorem nearestDouble_lt (a b n : Nat) (hb : 0 < b) (hn : 0 < n)
    (h : a * 2 ^ 53 ≤ (2 ^ 53 - 1) * (n * b)) :
    (nearestDouble a b).1 < n * (nearestDouble a b).2 := by
  have hab : a < n * b := by
    have h1 : 0 < n * b := Nat.mul_pos hn hb
    have h2 : (2 ^ 53 - 1) * (n * b) < 2 ^ 53 * (n * b) :=
      Nat.mul_lt_mul_of_pos_right (by decide) h1
    have h3 : a * 2 ^ 53 < (n * b) * 2 ^ 53 := by
      rw [Nat.mul_comm (n * b)]; exact Nat.lt_of_le_of_lt h h2
    exact Nat.lt_of_mul_lt_mul_right h3
  unfold nearestDouble
  split
  · exact hab
  · rename_i h0
    have ha : 0 < a := Nat.pos_of_ne_zero h0
    have hK := ulpExponent_bound a b n ha hb hab
    simp only
    generalize (ulpExponent a b).toNat = u at hK ⊢
    generalize (- ulpExponent a b).toNat = d at hK ⊢
    split
    · exact hab
    · have hX : 0 < 2 ^ u := Nat.two_pow_pos u
      have hY : 0 < 2 ^ d := Nat.two_pow_pos d
      have hr := roundHalfEven_le (a * 2 ^ d) (b * 2 ^ u) (Nat.mul_pos hb hX)
      generalize roundHalfEven (a * 2 ^ d) (b * 2 ^ u) = m at hr ⊢
      generalize 2 ^ u = X at hK hX hr ⊢
      generalize 2 ^ d = Y at hK hY hr ⊢
      simp only
      by_contra hcon
      have hge : n * Y ≤ m * X := Nat.le_of_not_lt hcon
      have e53 : (2 : Nat) ^ 53 = 9007199254740992 := by norm_num
      have e52 : (2 : Nat) ^ 52 = 4503599627370496 := by norm_num
      rw [e53] at h
      rw [e52] at hK
      simp only [show (9007199254740992 - 1 : Nat) = 9007199254740991 by decide] at h
      nlinarith [Nat.mul_le_mul_right b hge, Nat.mul_le_mul_right Y h,
        Nat.mul_lt_mul_of_pos_right hK hb]


theorem doubleBelow_le (num den : Nat) (h : num < den) :
    0 < (doubleBelow num den).2 ∧
    (doubleBelow num den).1 * 2 ^ 53 ≤ (2 ^ 53 - 1) * (doubleBelow num den).2 := by
  have hb : 0 < den := by omega
  unfold doubleBelow
  split
  · rename_i h0
    simp only [h0]
    exact ⟨hb, by omega⟩
  · rename_i h0
    have ha : 0 < num := Nat.pos_of_ne_zero h0
    have e53 : (2 : Nat) ^ 53 = 9007199254740992 := by norm_num
    rcases binaryExponent_cases num den ha hb with ⟨hle, _, _⟩ | ⟨_, he, h2⟩
    · omega
    · have hu : (ulpExponent num den).toNat = 0 := by unfold ulpExponent; omega
      have hd : 53 ≤ (- ulpExponent num den).toNat := by unfold ulpExponent; omega
      have hd2 : 54 ≤ (- ulpExponent num den).toNat → 2 * num ≤ den := by
        intro h54
        apply h2
        unfold ulpExponent at h54
        omega
      simp only [hu, Nat.pow_zero, Nat.mul_one]
      generalize (- ulpExponent num den).toNat = d at hd hd2 ⊢
      have hY : 0 < 2 ^ d := Nat.two_pow_pos d
      have hM : num * 2 ^ d / den * den ≤ num * 2 ^ d := Nat.div_mul_le_self _ _
      generalize num * 2 ^ d / den = m at hM ⊢
      have hC : m * 2 ^ 53 ≤ (2 ^ 53 - 1) * 2 ^ d := by
        rcases Nat.eq_or_lt_of_le hd with h53 | h54
        · rw [← h53] at hM ⊢
          have h1 : num * 2 ^ 53 < den * 2 ^ 53 :=
            Nat.mul_lt_mul_of_pos_right h (Nat.two_pow_pos 53)
          have h3 : m * den < 2 ^ 53 * den := by
            rw [Nat.mul_comm (2 ^ 53) den]; exact Nat.lt_of_le_of_lt hM h1
          have h4 : m < 2 ^ 53 := Nat.lt_of_mul_lt_mul_right h3
          rw [e53] at h4 ⊢
          omega
        · have h5 := hd2 h54
          generalize 2 ^ d = Y at hM hY ⊢
          have h6 : 2 * m ≤ Y := by
            by_contra hcon
            have h7 : Y < 2 * m := Nat.lt_of_not_le hcon
            nlinarith [Nat.mul_lt_mul_of_pos_right h7 hb, Nat.mul_le_mul_right Y h5]
          rw [e53]
          omega
      split
      · rename_i hex
        refine ⟨hb, ?_⟩
        generalize 2 ^ d = Y at hM hY hC hex ⊢
        rw [e53] at hC ⊢
        simp only [show (9007199254740992 - 1 : Nat) = 9007199254740991 by decide] at hC ⊢
        by_contra hcon
        have h7 := Nat.lt_of_not_le hcon
        nlinarith [Nat.mul_lt_mul_of_pos_right h7 hY, Nat.mul_le_mul_right den hC]
      · exact ⟨hY, hC⟩

theorem randomIndex_lt (r : RandomOutcome) (n : Nat) (hr : r.num < r.den) (hn : 0 < n) :
    randomIndex r n < n := by
  obtain ⟨hpos, hle⟩ := doubleBelow_le r.num r.den hr
  unfold randomIndex
  generalize (doubleBelow r.num r.den).1 = a at hle ⊢
  generalize (doubleBelow r.num r.den).2 = b at hpos hle ⊢
  have h1 : a * n * 2 ^ 53 ≤ (2 ^ 53 - 1) * (n * b) := by
    have h2 := Nat.mul_le_mul_right n hle
    calc a * n * 2 ^ 53 = a * 2 ^ 53 * n := by ring
      _ ≤ (2 ^ 53 - 1) * b * n := h2
      _ = (2 ^ 53 - 1) * (n * b) := by ring
  have h3 := nearestDouble_lt (a * n) b n hpos hn h1
  generalize (nearestDouble (a * n) b).1 = p at h3 ⊢
  generalize (nearestDouble (a * n) b).2 = q at h3 ⊢
  have hq : 0 < q := by
    rcases Nat.eq_zero_or_pos q with h0 | h0
    · rw [h0] at h3; omega
    · exact h0
  exact (Nat.div_lt_iff_lt_mul hq).2 h3

/-- The product `r * n` is rounded before the floor is taken: for the outcome
`2573485501354569 / 2 ^ 52` and 7 moves the exact product lies below 4, the
double product is 4, and the index drawn is 4. -/
theorem randomIndex_rounds_product :
    randomIndex { num := 2573485501354569, den := 2 ^ 52 } 7 = 4 ∧
    2573485501354569 * 7 / 2 ^ 52 = 3 := by
  decide

/-- Literals are rounded to doubles: twenty nines after the point and a one
far behind the point both read as the number 1, which selects the first move;
`0.1` reads as the double nearest to it. -/
theorem number_rounds_literal :
    (Number "0.99999999999999999999").pred? = some 0 ∧
    (Number "1.0000000000000000000001").pred? = some 0 ∧
    Number "0.1" = JSNumber.finite false 7205759403792794 (2 ^ 56) := by
  decide

set_option exponentiation.threshold 2000 in
set_option maxRecDepth 100000 in
/-- A literal below half the smallest double reads as `0`, the exit input. -/
theorem number_underflows_to_zero :
    (Number "1e-400").isZero = true ∧ (Number "-1e-400").isZero = true := by
  decide

theorem playGame_eq (H : String → String → String) (g : Game) (r : RandomOutcome)
    (hr : r.num < r.den) (hn : 0 < g.moves.length) :
    ∃ m, g.moves[randomIndex r g.moves.length]? = some m ∧
      playGame H g r =
        Step.awaiting { g with computerMove := some m, hmac := some (H g.key m) }
          [Event.log ("HMAC key: " ++ g.key), Event.question "Enter your move: "] := by
  have hk := randomIndex_lt r g.moves.length hr hn
  refine ⟨g.moves[randomIndex r g.moves.length], List.getElem?_eq_getElem hk, ?_⟩
  simp [playGame, List.getElem?_eq_getElem hk]

/-- With seven moves and the outcome `2573485501354569 / 2 ^ 52`, `playGame`
commits to the move at index 4. -/
theorem playGame_rounds_product :
    (playGame sampleHMAC (Game.create "k" ["a", "b", "c", "d", "e", "f", "g"])
      { num := 2573485501354569, den := 2 ^ 52 }).commitment =
      some (some "e", some "hmac(k,e)") := by
  decide

/-- The line `1e-400` is the number 0 and takes the exit branch. -/
theorem tiny_literal_exits (H : String → String → String) (g : Game) (r : RandomOutcome) :
    handleInput H g "1e-400" r = Step.ended [Event.log "Goodbye!", Event.close] := by
  have h := number_underflows_to_zero.1
  simp [handleInput, h]

theorem playGame_awaiting (H : String → String → String) (g g' : Game) (r : RandomOutcome)
    (out : List Event) (h : playGame H g r = Step.awaiting g' out) :
    ∃ m, m ∈ g.moves ∧
      g' = { g with computerMove := some m, hmac := some (H g.key m) } ∧
      out = [Event.log ("HMAC key: " ++ g.key), Event.question "Enter your move: "] := by
  unfold playGame at h
  split at h
  · cases h
  · rename_i m hm
    injection h with h1 h2
    exact ⟨m, List.getElem?_mem hm, h1.symm, h2.symm⟩

theorem playGame_ne_ended (H : String → String → String) (g : Game) (r : RandomOutcome)
    (pre out : List Event) : (playGame H g r).prepend pre ≠ Step.ended out := by
  unfold playGame
  split <;> simp [Step.prepend]

theorem prepend_awaiting (s : Step) (pre : List Event) (g : Game) (out : List Event)
    (h : s.prepend pre = Step.awaiting g out) :
    ∃ out0, s = Step.awaiting g out0 ∧ out = pre ++ out0 := by
  cases s <;> simp [Step.prepend] at h
  obtain ⟨rfl, rfl⟩ := h
  exact ⟨_, rfl, rfl⟩

theorem handleInput_reprompt (H : String → String → String) (g : Game) (line : String)
    (r : RandomOutcome)
    (hline : line = "?" ∨ ((Number line).isZero = false ∧
      ((Number line).isNaN = true ∨ (Number line).ltOne = true ∨
        (Number line).gtNat g.moves.length = true))) :
    handleInput H g line r =
      (playGame H g r).prepend
        (if line = "?" then printRulesTable g
         else Event.error "Invalid input. Please enter a valid move number." :: printMenu g) := by
  unfold handleInput
  rcases hline with rfl | ⟨hz, h⟩
  · have hz : (Number "?").isZero = false := by decide
    simp [hz]
  · by_cases hq : line = "?"
    · subst hq
      simp [hz]
    · have hb : ((Number line).isNaN || (Number line).ltOne ||
          (Number line).gtNat g.moves.length) = true := by
        rcases h with h | h | h <;> simp [h]
      simp [hz, hq, hb]

theorem resolve_eq (g : Game) (x : JSNumber) (out : List Event)
    (h : resolve g x = Step.ended out) :
    ∃ verdict, out =
      [Event.log ("Your move: " ++ showOptional (x.pred?.bind (fun k => g.moves[k]?))),
       Event.log ("Computer move: " ++ showNullable g.computerMove)] ++ verdict ++
      [Event.log ("HMAC: " ++ showNullable g.hmac), Event.close] := by
  unfold resolve at h
  simp only at h
  split at h
  · cases h
  · injection h with h
    exact ⟨_, h.symm⟩

theorem resolve_ne_awaiting (g g' : Game) (x : JSNumber) (out : List Event) :
    resolve g x ≠ Step.awaiting g' out := by
  unfold resolve
  simp only
  split <;> simp

theorem handleInput_ended (H : String → String → String) (g : Game) (line : String)
    (r : RandomOutcome) (out : List Event) (h : handleInput H g line r = Step.ended out) :
    out = [Event.log "Goodbye!", Event.close] ∨
    ∃ shown verdict, out =
      [Event.log ("Your move: " ++ shown),
       Event.log ("Computer move: " ++ showNullable g.computerMove)] ++ verdict ++
      [Event.log ("HMAC: " ++ showNullable g.hmac), Event.close] := by
  unfold handleInput at h
  simp only at h
  split at h
  · injection h with h
    exact Or.inl h.symm
  · split at h
    · exact absurd h (playGame_ne_ended H g r _ out)
    · split at h
      · exact absurd h (playGame_ne_ended H g r _ out)
      · obtain ⟨verdict, hv⟩ := resolve_eq g _ out h
        exact Or.inr ⟨_, verdict, hv⟩

theorem handleInput_awaiting (H : String → String → String) (g g' : Game) (line : String)
    (r : RandomOutcome) (out : List Event) (h : handleInput H g line r = Step.awaiting g' out) :
    ∃ m pre, m ∈ g.moves ∧
      g' = { g with computerMove := some m, hmac := some (H g.key m) } ∧
      out = pre ++ [Event.log ("HMAC key: " ++ g.key), Event.question "Enter your move: "] := by
  unfold handleInput at h
  simp only at h
  split at h
  · cases h
  · split at h
    · obtain ⟨out0, h0, rfl⟩ := prepend_awaiting _ _ _ _ h
      obtain ⟨m, hm, hg, rfl⟩ := playGame_awaiting H g g' r out0 h0
      exact ⟨m, _, hm, hg, rfl⟩
    · split at h
      · obtain ⟨out0, h0, rfl⟩ := prepend_awaiting _ _ _ _ h
        obtain ⟨m, hm, hg, rfl⟩ := playGame_awaiting H g g' r out0 h0
        exact ⟨m, _, hm, hg, rfl⟩
      · exact absurd h (resolve_ne_awaiting g g' _ out)

/-- The state of a step that awaits input is committed: the moves and the key
are those the game began with, the stored HMAC is the code of the stored move
under that key, and the last things printed are the key and the prompt. -/
theorem run_committed (H : String → String → String) (moves : List String) (key : String)
    (inputs : List (String × RandomOutcome)) :
    ∀ (s : Step),
      (∀ g out, s = Step.awaiting g out →
        g.moves = moves ∧ g.key = key ∧
        (∃ m, m ∈ moves ∧ g.computerMove = some m ∧ g.hmac = some (H key m)) ∧
        ∃ pre, out = pre ++
          [Event.log ("HMAC key: " ++ key), Event.question "Enter your move: "]) →
      ∀ g out, run H s inputs = Step.awaiting g out →
        g.moves = moves ∧ g.key = key ∧
        (∃ m, m ∈ moves ∧ g.computerMove = some m ∧ g.hmac = some (H key m)) ∧
        ∃ pre, out = pre ++
          [Event.log ("HMAC key: " ++ key), Event.question "Enter your move: "] := by
  induction inputs with
  | nil =>
    intro s hs g out h
    cases s <;> simp [run] at h
    obtain ⟨rfl, rfl⟩ := h
    exact hs _ _ rfl
  | cons input rest ih =>
    intro s hs g out h
    obtain ⟨line, r⟩ := input
    cases s with
    | awaiting g0 out0 =>
      simp only [run] at h
      obtain ⟨hm0, hk0, -, -⟩ := hs g0 out0 rfl
      refine ih _ ?_ g out h
      intro g1 out1 h1
      obtain ⟨out2, h2, rfl⟩ := prepend_awaiting _ _ _ _ h1
      obtain ⟨m, pre, hm, rfl, rfl⟩ := handleInput_awaiting H g0 g1 line r out2 h2
      refine ⟨hm0, hk0, ⟨m, hm0 ▸ hm, rfl, by simp [hk0]⟩, out0 ++ pre, by simp [hk0]⟩
    | ended out0 => simp [run] at h
    | thrown out0 => simp [run] at h

theorem tableEntry_cases (n i j : Nat) :
    tableEntry n i j = "Win" ∨ tableEntry n i j = "Lose" ∨ tableEntry n i j = "Draw" := by
  unfold tableEntry
  split
  · exact Or.inl rfl
  · split
    · exact Or.inr (Or.inl rfl)
    · exact Or.inr (Or.inr rfl)

theorem jsIndexOf_getElem (moves : List String) (hnd : moves.Nodup) (k : Nat)
    (hk : k < moves.length) : jsIndexOf moves (some moves[k]) = some k := by
  simp [jsIndexOf, List.getElem_mem, List.indexOf_getElem hnd k hk]

/-- An integer selection resolves: in a game created from distinct moves, with
the computer's move at index `c`, a number `x` that is the integer `k + 1`
with `k` below N is resolved to `rulesTable[c][k]`, and exactly one of the
three outcome lines is printed. -/
theorem resolve_integer (key : String) (moves : List String) (code : Option String)
    (hnd : moves.Nodup) (c k : Nat) (hc : c < moves.length) (hk : k < moves.length)
    (x : JSNumber) (hx : x.pred? = some k) :
    resolve { Game.create key moves with computerMove := some moves[c], hmac := code } x =
      Step.ended
        ([Event.log ("Your move: " ++ moves[k]), Event.log ("Computer move: " ++ moves[c])] ++
          [Event.log
            (if tableEntry moves.length c k = "Win" then "You win!"
             else if tableEntry moves.length c k = "Lose" then "Computer wins!"
             else "It's a draw!")] ++
          [Event.log ("HMAC: " ++ showNullable code), Event.close]) := by
  have hrow := getElem?_generateRulesTable moves c hc
  have hkk : moves[k]? = some moves[k] := List.getElem?_eq_getElem hk
  unfold resolve
  simp only [Game.create, hx, Option.some_bind, hkk, jsIndexOf_getElem moves hnd c hc,
    jsIndexOf_getElem moves hnd k hk, hrow, showOptional, showNullable]
  have hget : ((List.range moves.length).map (fun j => tableEntry moves.length c j))[k]? =
      some (tableEntry moves.length c k) := by
    simp [List.getElem?_map, List.getElem?_range, hk]
  rw [hget]
  rcases tableEntry_cases moves.length c k with h | h | h <;> simp [h]

/-! ## Theorems on the start-up validation and on the round -/

/-- C4, as the code has it: in the table of Rock, Paper, Scissors the row is
the computer's move and the column the user's, the entry being the result for
the column. `M[Scissors][Rock] = 'Win'`, `M[Paper][Rock] = 'Lose'` and
`M[Rock][Rock] = 'Draw'`; a round in which the user picks Rock (input `1`)
prints `You win!` against Scissors, `Computer wins!` against Paper and
`It's a draw!` against Rock. -/
theorem classic_table_column_perspective :
    entry (generateRulesTable classicMoves)
      (classicMoves.indexOf "Scissors") (classicMoves.indexOf "Rock") = some "Win" ∧
    entry (generateRulesTable classicMoves)
      (classicMoves.indexOf "Paper") (classicMoves.indexOf "Rock") = some "Lose" ∧
    entry (generateRulesTable classicMoves)
      (classicMoves.indexOf "Rock") (classicMoves.indexOf "Rock") = some "Draw" ∧
    handleInput sampleHMAC (classicGame "Scissors") "1" { num := 0, den := 1 } =
      Step.ended [Event.log "Your move: Rock", Event.log "Computer move: Scissors",
        Event.log "You win!", Event.log "HMAC: hmac(k,Scissors)", Event.close] ∧
    handleInput sampleHMAC (classicGame "Paper") "1" { num := 0, den := 1 } =
      Step.ended [Event.log "Your move: Rock", Event.log "Computer move: Paper",
        Event.log "Computer wins!", Event.log "HMAC: hmac(k,Paper)", Event.close] ∧
    handleInput sampleHMAC (classicGame "Rock") "1" { num := 0, den := 1 } =
      Step.ended [Event.log "Your move: Rock", Event.log "Computer move: Rock",
        Event.log "It's a draw!", Event.log "HMAC: hmac(k,Rock)", Event.close] := by
  decide

/-- C4 as stated fails: in the row of Rock the column of Scissors holds
`'Lose'` and the column of Paper holds `'Win'`. -/
theorem classic_table_row_perspective_counterexample :
    entry (generateRulesTable classicMoves)
      (classicMoves.indexOf "Rock") (classicMoves.indexOf "Scissors") = some "Lose" ∧
    entry (generateRulesTable classicMoves)
      (classicMoves.indexOf "Rock") (classicMoves.indexOf "Paper") = some "Win" := by
  decide

/-- C6: `main` reports the invalid-move-set error, and creates no game, exactly
when the list has fewer than 3 names, an even number of names, or two equal
names; the output is then the one error line. For an odd number N >= 3 of
distinct names the game is created with the table of `generateRulesTable`, the
menu is printed and a round starts: a move of the list is committed and the
program awaits the user's input. -/
theorem main_rejects_iff (H : String → String → String) (args : List String) (key : String)
    (r : RandomOutcome) :
    ((∃ out, main H args key r = Step.ended out) ↔
      (args.length < 3 ∨ args.length % 2 = 0 ∨ ¬ args.Nodup)) ∧
    ((args.length < 3 ∨ args.length % 2 = 0 ∨ ¬ args.Nodup) →
      main H args key r = Step.ended
        [Event.error "Invalid input. Please provide an odd number of unique moves."]) ∧
    (args.length % 2 = 1 → 3 ≤ args.length → args.Nodup → r.num < r.den →
      ∃ m, m ∈ args ∧ main H args key r =
        Step.awaiting
          { moves := args, rulesTable := generateRulesTable args, key := key,
            computerMove := some m, hmac := some (H key m) }
          (printMenu (Game.create key args) ++
            [Event.log ("HMAC key: " ++ key), Event.question "Enter your move: "])) := by
  have hbad : (args.length < 3 ∨ args.length % 2 = 0 ∨ ¬ args.Nodup) →
      main H args key r = Step.ended
        [Event.error "Invalid input. Please provide an odd number of unique moves."] := by
    intro h
    rw [← setSize_ne_length_iff] at h
    simp [main, h]
  refine ⟨⟨?_, fun h => ⟨_, hbad h⟩⟩, hbad, ?_⟩
  · rintro ⟨out, hout⟩
    by_contra hgood
    rw [← setSize_ne_length_iff] at hgood
    rw [main, if_neg hgood] at hout
    exact playGame_ne_ended H _ r _ out hout
  · intro hodd h3 hnd hr
    have hgood : ¬ (args.length < 3 ∨ args.length % 2 = 0 ∨ setSize args ≠ args.length) := by
      rw [setSize_ne_length_iff]
      rintro (h | h | h)
      · omega
      · omega
      · exact h hnd
    obtain ⟨m, hm, hp⟩ := playGame_eq H (Game.create key args) r hr
      (show 0 < args.length by omega)
    refine ⟨m, List.getElem?_mem hm, ?_⟩
    rw [main, if_neg hgood, hp]
    rfl

/-- Names that differ only in case are distinct: the list `rock, Rock, ROCK` is
accepted and a round starts; the list `Rock, Paper, Rock` is rejected. -/
theorem main_rejects_iff_witness :
    (∃ m, m ∈ ["rock", "Rock", "ROCK"] ∧
      main sampleHMAC ["rock", "Rock", "ROCK"] "k" { num := 1, den := 2 } =
        Step.awaiting
          { moves := ["rock", "Rock", "ROCK"],
            rulesTable := generateRulesTable ["rock", "Rock", "ROCK"], key := "k",
            computerMove := some m, hmac := some (sampleHMAC "k" m) }
          (printMenu (Game.create "k" ["rock", "Rock", "ROCK"]) ++
            [Event.log ("HMAC key: " ++ "k"), Event.question "Enter your move: "])) ∧
    main sampleHMAC ["Rock", "Paper", "Rock"] "k" { num := 1, den := 2 } = Step.ended
      [Event.error "Invalid input. Please provide an odd number of unique moves."] :=
  ⟨(main_rejects_iff sampleHMAC ["rock", "Rock", "ROCK"] "k" { num := 1, den := 2 }).2.2
      (by decide) (by decide) (by decide) (by decide),
    (main_rejects_iff sampleHMAC ["Rock", "Paper", "Rock"] "k" { num := 1, den := 2 }).2.1
      (by decide)⟩

/-- C7: round-trip integrity. In every state in which a session started by
`main` awaits input, after any sequence of input lines, the key is the one
`main` generated, the last lines printed are that key and the prompt, and the
stored `hmac` is `calculateHMAC(key, computerMove)` for the stored move, a
move of the list. Hence a line that ends the session there either is the exit
or reveals: the computer's move printed is the committed one and the HMAC
printed is the code of that move under the key printed before the input. -/
theorem hmac_round_trip (H : String → String → String) (args : List String) (key : String)
    (r0 : RandomOutcome) (inputs : List (String × RandomOutcome)) (g : Game)
    (out : List Event) (h : run H (main H args key r0) inputs = Step.awaiting g out) :
    g.key = key ∧
    (∃ pre, out = pre ++
      [Event.log ("HMAC key: " ++ key), Event.question "Enter your move: "]) ∧
    ∃ m, m ∈ args ∧ g.computerMove = some m ∧ g.hmac = some (H key m) ∧
      ∀ line r out', handleInput H g line r = Step.ended out' →
        out' = [Event.log "Goodbye!", Event.close] ∨
        ∃ shown verdict, out' =
          [Event.log ("Your move: " ++ shown), Event.log ("Computer move: " ++ m)] ++
            verdict ++ [Event.log ("HMAC: " ++ H key m), Event.close] := by
  have hstart : ∀ g1 out1, main H args key r0 = Step.awaiting g1 out1 →
      g1.moves = args ∧ g1.key = key ∧
      (∃ m, m ∈ args ∧ g1.computerMove = some m ∧ g1.hmac = some (H key m)) ∧
      ∃ pre, out1 = pre ++
        [Event.log ("HMAC key: " ++ key), Event.question "Enter your move: "] := by
    intro g1 out1 h1
    unfold main at h1
    split at h1
    · cases h1
    · obtain ⟨out2, h2, rfl⟩ := prepend_awaiting _ _ _ _ h1
      obtain ⟨m, hm, rfl, rfl⟩ := playGame_awaiting H _ g1 r0 out2 h2
      exact ⟨rfl, rfl, ⟨m, hm, rfl, rfl⟩, _, rfl⟩
  obtain ⟨-, hk, ⟨m, hm, hcm, hh⟩, hpre⟩ := run_committed H args key inputs _ hstart g out h
  refine ⟨hk, hpre, m, hm, hcm, hh, ?_⟩
  intro line r out' hend
  rcases handleInput_ended H g line r out' hend with h1 | ⟨shown, verdict, h1⟩
  · exact Or.inl h1
  · refine Or.inr ⟨shown, verdict, ?_⟩
    rw [h1, hcm, hh]
    rfl

/-- A session of the classic game: help, an invalid line, then the state
awaiting input is committed to Paper under the key `k`. -/
theorem hmac_round_trip_witness :
    (classicGame "Paper").key = "k" ∧
    (∃ pre, (printMenu (classicGame "Paper") ++
        [Event.log "HMAC key: k", Event.question "Enter your move: "] ++
        printRulesTable (classicGame "Paper") ++
        [Event.log "HMAC key: k", Event.question "Enter your move: "] ++
        (Event.error "Invalid input. Please enter a valid move number." ::
          printMenu (classicGame "Paper")) ++
        [Event.log "HMAC key: k", Event.question "Enter your move: "]) = pre ++
      [Event.log ("HMAC key: " ++ "k"), Event.question "Enter your move: "]) ∧
    ∃ m, m ∈ classicMoves ∧ (classicGame "Paper").computerMove = some m ∧
      (classicGame "Paper").hmac = some (sampleHMAC "k" m) ∧
      ∀ line r out', handleInput sampleHMAC (classicGame "Paper") line r = Step.ended out' →
        out' = [Event.log "Goodbye!", Event.close] ∨
        ∃ shown verdict, out' =
          [Event.log ("Your move: " ++ shown), Event.log ("Computer move: " ++ m)] ++
            verdict ++ [Event.log ("HMAC: " ++ sampleHMAC "k" m), Event.close] :=
  hmac_round_trip sampleHMAC classicMoves "k" { num := 0, den := 1 }
    [("?", { num := 2, den := 3 }), ("abc", { num := 1, den := 2 })]
    (classicGame "Paper") _ (by decide)

/-- C8 as stated fails: the classic game has committed to Rock; after the line
`?` (as after the invalid line `abc`), with the next outcome of the random
source `1/2`, the game is committed to Paper with the HMAC of Paper, and the
selection `1` made next is resolved against Paper. -/
theorem reprompt_keeps_commitment_counterexample :
    (main sampleHMAC classicMoves "k" { num := 0, den := 1 }).commitment =
      some (some "Rock", some "hmac(k,Rock)") ∧
    (run sampleHMAC (main sampleHMAC classicMoves "k" { num := 0, den := 1 })
      [("?", { num := 1, den := 2 })]).commitment =
      some (some "Paper", some "hmac(k,Paper)") ∧
    (run sampleHMAC (main sampleHMAC classicMoves "k" { num := 0, den := 1 })
      [("abc", { num := 1, den := 2 })]).commitment =
      some (some "Paper", some "hmac(k,Paper)") ∧
    handleInput sampleHMAC (classicGame "Rock") "?" { num := 1, den := 2 } =
      Step.awaiting (classicGame "Paper")
        (printRulesTable (classicGame "Rock") ++
          [Event.log "HMAC key: k", Event.question "Enter your move: "]) ∧
    handleInput sampleHMAC (classicGame "Paper") "1" { num := 0, den := 1 } =
      Step.ended [Event.log "Your move: Rock", Event.log "Computer move: Paper",
        Event.log "Computer wins!", Event.log "HMAC: hmac(k,Paper)", Event.close] := by
  decide

/-- C8, as the code has it: on the line `?`, and on a line whose number is not
zero and is `NaN`, below 1 or above N, the handler re-enters `playGame`. The
moves, the rules table and the key stay; the computer's move is drawn afresh,
`moves[Math.floor(r * N)]` for the next outcome `r` of the random source, and
the stored `hmac` is the code of the new move under the same key. A line that
then ends the session is the exit or reveals the new move with that code. -/
theorem reprompt_redraws_commitment (H : String → String → String) (g : Game)
    (line : String) (r : RandomOutcome) (hr : r.num < r.den) (hn : 0 < g.moves.length)
    (hline : line = "?" ∨ ((Number line).isZero = false ∧
      ((Number line).isNaN = true ∨ (Number line).ltOne = true ∨
        (Number line).gtNat g.moves.length = true))) :
    ∃ m, g.moves[randomIndex r g.moves.length]? = some m ∧
      handleInput H g line r =
        Step.awaiting { g with computerMove := some m, hmac := some (H g.key m) }
          ((if line = "?" then printRulesTable g
            else Event.error "Invalid input. Please enter a valid move number." ::
              printMenu g) ++
            [Event.log ("HMAC key: " ++ g.key), Event.question "Enter your move: "]) ∧
      ∀ line' r' out,
        handleInput H { g with computerMove := some m, hmac := some (H g.key m) } line' r' =
          Step.ended out →
        out = [Event.log "Goodbye!", Event.close] ∨
        ∃ shown verdict, out =
          [Event.log ("Your move: " ++ shown), Event.log ("Computer move: " ++ m)] ++
            verdict ++ [Event.log ("HMAC: " ++ H g.key m), Event.close] := by
  obtain ⟨m, hm, hp⟩ := playGame_eq H g r hr hn
  refine ⟨m, hm, ?_, ?_⟩
  · rw [handleInput_reprompt H g line r hline, hp]
    rfl
  · intro line' r' out hend
    exact handleInput_ended H _ line' r' out hend

/-- The classic game committed to Rock, the line `?` and the outcome `3/4`:
the game is committed to Scissors afterwards. -/
theorem reprompt_redraws_commitment_witness :
    ∃ m, (classicGame "Rock").moves[randomIndex { num := 3, den := 4 }
        (classicGame "Rock").moves.length]? = some m ∧
      handleInput sampleHMAC (classicGame "Rock") "?" { num := 3, den := 4 } =
        Step.awaiting { classicGame "Rock" with
            computerMove := some m, hmac := some (sampleHMAC (classicGame "Rock").key m) }
          ((if "?" = "?" then printRulesTable (classicGame "Rock")
            else Event.error "Invalid input. Please enter a valid move number." ::
              printMenu (classicGame "Rock")) ++
            [Event.log ("HMAC key: " ++ (classicGame "Rock").key),
              Event.question "Enter your move: "]) ∧
      ∀ line' r' out,
        handleInput sampleHMAC { classicGame "Rock" with
            computerMove := some m, hmac := some (sampleHMAC (classicGame "Rock").key m) }
          line' r' = Step.ended out →
        out = [Event.log "Goodbye!", Event.close] ∨
        ∃ shown verdict, out =
          [Event.log ("Your move: " ++ shown), Event.log ("Computer move: " ++ m)] ++
            verdict ++
            [Event.log ("HMAC: " ++ sampleHMAC (classicGame "Rock").key m), Event.close] :=
  reprompt_redraws_commitment sampleHMAC (classicGame "Rock") "?" { num := 3, den := 4 }
    (by decide) (by decide) (Or.inl rfl)

/-- C9 at the empty line and at a line of blanks: `Number` gives `0` for both,
so the handler takes the exit branch, prints `Goodbye!` and closes; no
invalid-input message, no menu, no new prompt. -/
theorem blank_line_exits (H : String → String → String) (g : Game) (r : RandomOutcome) :
    Number "" = JSNumber.finite false 0 1 ∧
    handleInput H g "" r = Step.ended [Event.log "Goodbye!", Event.close] ∧
    handleInput H g "   " r = Step.ended [Event.log "Goodbye!", Event.close] ∧
    handleInput H g "abc" r =
      (playGame H g r).prepend
        (Event.error "Invalid input. Please enter a valid move number." :: printMenu g) := by
  have h1 : (Number "").isZero = true := by decide
  have h2 : (Number "   ").isZero = true := by decide
  refine ⟨by decide, ?_, ?_, ?_⟩
  · simp [handleInput, h1]
  · simp [handleInput, h2]
  · rw [handleInput_reprompt H g "abc" r (Or.inr ⟨by decide, Or.inl (by decide)⟩)]
    rfl

/-- C10 at the line `1.5` in the classic game committed to Rock: the number
passes every check of the handler, is no integer, `moves[0.5]` is `undefined`,
and the round ends with the reveal but with none of the three outcome lines. -/
theorem fractional_selection_unresolved :
    Number "1.5" = JSNumber.finite false 15 10 ∧
    (Number "1.5").isZero = false ∧ (Number "1.5").isNaN = false ∧
    (Number "1.5").ltOne = false ∧ (Number "1.5").gtNat classicMoves.length = false ∧
    handleInput sampleHMAC (classicGame "Rock") "1.5" { num := 0, den := 1 } =
      Step.ended [Event.log "Your move: undefined", Event.log "Computer move: Rock",
        Event.log "HMAC: hmac(k,Rock)", Event.close] := by
  decide

end Rps
